import Mathlib

/-!
Verification of the ETH market-structure analysis and signal-scoring engine.

Shallow embedding of the JavaScript sources:
  * `.github/scripts/alert.js`          — quality scoring, regime gates, de-dup
  * `netlify/edge-functions/edge-data.js` — ZigZag pivots, trendlines, VWAP bands
  * `netlify/functions/data.js`         — indicator library (ema/rsi/atr/adx), vwap

JS `number` values are modelled as `ℚ`.  Division by zero in `ℚ` yields `0`
(where JS would produce `NaN`/`±Infinity`); every place where that matters is
either guarded in the source or modelled explicitly with `Option`
(`none` = the JS computation produces a non-number / throws).
-/

namespace ETH

/- Let proofs by `decide` evaluate rational arithmetic: the Batteries
definitions are `@[irreducible]` only to keep `simp`-normal forms tidy. -/
set_option allowUnsafeReducibility true in
attribute [semireducible] Rat.add Rat.sub Rat.mul Rat.div Rat.inv Rat.ofScientific

/-- JS `Math.max` on two numbers (kernel-reducible, unlike Mathlib's `⊔`). -/
def jmax (a b : ℚ) : ℚ := if a ≤ b then b else a

/-- JS `Math.min` on two numbers. -/
def jmin (a b : ℚ) : ℚ := if a ≤ b then a else b

/-- JS `Math.abs`. -/
def jabs (a : ℚ) : ℚ := if a < 0 then -a else a

/-- JS `Math.max` on integers. -/
def jmaxI (a b : ℤ) : ℤ := if a ≤ b then b else a

/-- JS `Math.min` on integers. -/
def jminI (a b : ℤ) : ℤ := if a ≤ b then a else b

/-- JS `Math.round`: round half toward positive infinity. -/
def jround (x : ℚ) : ℤ := ⌊x + 1/2⌋

/-- JS `+(v).toFixed(2)`: rounding to two decimal places. -/
def round2 (x : ℚ) : ℚ := (jround (x * 100) : ℚ) / 100

/-- The `$ = n => Number(n||0)` helper of alert.js: an absent value becomes 0. -/
def dollar (o : Option ℚ) : ℚ := o.getD 0

/-- JS `a.slice(-p)` (last `p` elements; `slice(-0)` is the whole array). -/
def jsSliceLast (a : List ℚ) (p : ℕ) : List ℚ :=
  if p = 0 then a else a.drop (a.length - p)

/-! ## Indicator library (netlify/functions/data.js) -/

/-- `sma(a,p) = a.slice(-p).reduce((s,v)=>s+v,0)/p`.  With `p = 0` the JS
division produces a non-number while the ℚ convention returns 0; the
indicator call sites use positive periods, and the zero-period path of `adx`
(where JS returns `NaN`) is modelled separately by `adxJs`. -/
def sma (a : List ℚ) (p : ℕ) : ℚ := (jsSliceLast a p).sum / p

/-- `ema(a,p)`: returns 0 when `a.length < p`; otherwise seeds with the SMA of
the first `p` values and applies `e = a[i]*k + e*(1-k)` with `k = 2/(p+1)`. -/
def ema (a : List ℚ) (p : ℕ) : ℚ :=
  if a.length < p then 0
  else
    let k : ℚ := 2 / (p + 1)
    (a.drop p).foldl (fun e x => x * k + e * (1 - k)) (sma (a.take p) p)

/-- Consecutive deltas `a[i] - a[i-1]`, `i = 1 …`. -/
def deltas (a : List ℚ) : List ℚ := List.zipWith (fun x y => x - y) a.tail a

/-- `rsi(a,p)`: returns 0 when `a.length < p+1`; otherwise Wilder-smoothed
average gain/loss seeded by the simple averages of the first `p` deltas,
and `ad ? 100 - 100/(1+au/ad) : 100`. -/
def rsi (a : List ℚ) (p : ℕ) : ℚ :=
  if a.length < p + 1 then 0
  else
    let d := deltas a
    let up := ((d.take p).map (fun x => jmax x 0)).sum
    let dn := ((d.take p).map (fun x => jmax (-x) 0)).sum
    let st := (d.drop p).foldl
      (fun (s : ℚ × ℚ) x => ((s.1 * (p - 1) + jmax x 0) / p, (s.2 * (p - 1) + jmax (-x) 0) / p))
      (up / p, dn / p)
    if st.2 = 0 then 100 else 100 - 100 / (1 + st.1 / st.2)

/-- True-range list: `max(h[i]-l[i], |h[i]-c[i-1]|, |l[i]-c[i-1]|)` for `i = 1 …`. -/
def trList (h l c : List ℚ) : List ℚ :=
  (List.range' 1 (h.length - 1)).map (fun i =>
    jmax (h.getD i 0 - l.getD i 0)
      (jmax (jabs (h.getD i 0 - c.getD (i - 1) 0)) (jabs (l.getD i 0 - c.getD (i - 1) 0))))

/-- `atr(h,l,c,p)`: returns 0 when `h.length < p+1`; otherwise the simple
average of the last `p` true ranges. -/
def atr (h l c : List ℚ) (p : ℕ) : ℚ :=
  if h.length < p + 1 then 0 else sma (trList h l c) p

/-- `+DM` list of the Wilder ADX: `up>dn && up>0 ? up : 0`. -/
def dmPlusList (h l : List ℚ) : List ℚ :=
  (List.range' 1 (h.length - 1)).map (fun i =>
    let up := h.getD i 0 - h.getD (i - 1) 0
    let dn := l.getD (i - 1) 0 - l.getD i 0
    if up > dn ∧ up > 0 then up else 0)

/-- `-DM` list of the Wilder ADX: `dn>up && dn>0 ? dn : 0`. -/
def dmMinusList (h l : List ℚ) : List ℚ :=
  (List.range' 1 (h.length - 1)).map (fun i =>
    let up := h.getD i 0 - h.getD (i - 1) 0
    let dn := l.getD (i - 1) 0 - l.getD i 0
    if dn > up ∧ dn > 0 then dn else 0)

/-- Wilder smoothing: `res = [sma(arr.slice(0,p),p)]`, then
`res.push(prev - prev/p + arr[i])` for `i = p …`. -/
def wilderSmooth (p : ℕ) (arr : List ℚ) : List ℚ :=
  ((arr.drop p).foldl
    (fun (st : List ℚ × ℚ) x =>
      let nxt := st.2 - st.2 / p + x
      (st.1 ++ [nxt], nxt))
    ([sma (arr.take p) p], sma (arr.take p) p)).1

/-- JS `x || 1`: substitute 1 for a zero denominator. -/
def orOne (x : ℚ) : ℚ := if x = 0 then 1 else x

/-- The DX series: `|+DI - -DI| / (+DI + -DI || 1) * 100` with
`±DI = smoothed±DM / (smoothedTR || 1) * 100`. -/
def dxList (tr14 plus14 minus14 : List ℚ) : List ℚ :=
  (List.range plus14.length).map (fun i =>
    let pdi := plus14.getD i 0 / orOne (tr14.getD i 0) * 100
    let mdi := minus14.getD i 0 / orOne (tr14.getD i 0) * 100
    jabs (pdi - mdi) / orOne (pdi + mdi) * 100)

/-- `adx(h,l,c,p)`: 0 when too short, otherwise the simple average of the last
`p` DX values, displayed with `toFixed(2)`. -/
def adx (h l c : List ℚ) (p : ℕ) : ℚ :=
  if h.length < p + 1 then 0
  else
    let tr14 := wilderSmooth p (trList h l c)
    let plus14 := wilderSmooth p (dmPlusList h l)
    let minus14 := wilderSmooth p (dmMinusList h l)
    round2 (sma (jsSliceLast (dxList tr14 plus14 minus14) p) p)

/-- The JS `adx` including its non-number outcome.  With `p = 0` and a
non-empty window the seed `sma(arr.slice(0,p),p)` divides `0/0`, and the
resulting `NaN` propagates through the Wilder-smoothed series, the DX terms
(`NaN || 1` is `1`, so the denominator guards do not stop a `NaN` numerator)
and the final `sma(dx.slice(-0),0)`, so the function returns `NaN` —
modelled as `none`.  For `p ≥ 1` the computation is the total `adx` above. -/
def adxJs (h l c : List ℚ) (p : ℕ) : Option ℚ :=
  if h.length < p + 1 then some 0
  else if p = 0 then none
  else some (adx h l c p)

/-! ## ZigZag pivot detector (netlify/edge-functions/edge-data.js) -/

/-- A ZigZag pivot: `{ idx, price }` (the detector does not label High/Low). -/
structure ZPivot where
  idx : ℕ
  price : ℚ
deriving DecidableEq, Repr

/-- State of the ZigZag walk: running extreme, its index, current leg
direction (`0` unknown, `+1` up, `-1` down) and pivots pushed so far. -/
structure ZState where
  lastIdx : ℕ
  lastExt : ℚ
  dir : ℤ
  pivots : List ZPivot
deriving DecidableEq, Repr

/-- One loop iteration of `zigzagPivots` at index `i`: the `dir >= 0` block
followed by the `dir <= 0` block, exactly as the two sequential `if`s. -/
def zzStep (prices : List ℚ) (thr : ℚ) (s : ZState) (i : ℕ) : ZState :=
  let p := prices.getD i 0
  let s1 :=
    if s.dir ≥ 0 then
      let su := if p ≥ s.lastExt then { s with lastExt := p, lastIdx := i } else s
      if (su.lastExt - p) / jmax su.lastExt 1 ≥ thr then
        { su with pivots := su.pivots ++ [⟨su.lastIdx, prices.getD su.lastIdx 0⟩],
                  dir := -1, lastExt := p, lastIdx := i }
      else su
    else s
  if s1.dir ≤ 0 then
    let sd := if p ≤ s1.lastExt then { s1 with lastExt := p, lastIdx := i } else s1
    if (p - sd.lastExt) / jmax sd.lastExt 1 ≥ thr then
      { sd with pivots := sd.pivots ++ [⟨sd.lastIdx, prices.getD sd.lastIdx 0⟩],
                dir := 1, lastExt := p, lastIdx := i }
    else sd
  else s1

def dedupIdxAux (prev : ZPivot) : List ZPivot → List ZPivot
  | [] => []
  | y :: ys => if y.idx = prev.idx then dedupIdxAux y ys else y :: dedupIdxAux y ys

/-- Drop pivots sharing the index of their immediate predecessor
(`k === 0 || pivots[k].idx !== pivots[k-1].idx`). -/
def dedupIdx : List ZPivot → List ZPivot
  | [] => []
  | x :: xs => x :: dedupIdxAux x xs

/-- `zigzagPivots(prices, pct)`: percentage-reversal pivot walk; always pushes
a final pivot at the last extreme, then de-duplicates consecutive indices. -/
def zigzagPivots (prices : List ℚ) (pct : ℚ) : List ZPivot :=
  if prices = [] then []
  else
    let thr := jmax pct (1 / 10000)
    let s := (List.range' 1 (prices.length - 1)).foldl (zzStep prices thr)
      ⟨0, prices.getD 0 0, 0, []⟩
    dedupIdx (s.pivots ++ [⟨s.lastIdx, prices.getD s.lastIdx 0⟩])

/-- The C4 scenario: a price series rising monotonically by 1% per bar for 30
bars, `prices[i] = 100 · 1.01^i` (written with ℕ powers: `100·101^i / 100^i`). -/
def risingSeries : List ℚ :=
  (List.range 30).map (fun i => ((100 * 101 ^ i : ℕ) : ℚ) / ((100 ^ i : ℕ) : ℚ))

/-! ## Primary trendline fitter (netlify/edge-functions/edge-data.js) -/

/-- `MIN_GAP_BARS = 14`. -/
def MIN_GAP_BARS : ℤ := 14

/-- `CONTAIN_TOL_PCT = 0.008`. -/
def CONTAIN_TOL_PCT : ℚ := 8 / 1000

/-- `CONTAIN_MAX_VIOLS = 2`. -/
def CONTAIN_MAX_VIOLS : ℕ := 2

/-- A trendline candidate: slope, intercept and the two anchor pivots. -/
structure Cand where
  slope : ℚ
  intercept : ℚ
  A : ZPivot
  B : ZPivot
deriving DecidableEq, Repr

/-- Whether pivot `P` breaches a support line by more than the tolerance:
`P.price < lineAtP * (1 - CONTAIN_TOL_PCT)`. -/
def breachesSupport (slope intercept : ℚ) (P : ZPivot) : Prop :=
  P.price < (slope * P.idx + intercept) * (1 - CONTAIN_TOL_PCT)

instance (slope intercept : ℚ) (P : ZPivot) :
    Decidable (breachesSupport slope intercept P) := by
  unfold breachesSupport; infer_instance

/-- Whether pivot `P` breaches a resistance line by more than the tolerance:
`P.price > lineAtP * (1 + CONTAIN_TOL_PCT)`. -/
def breachesResistance (slope intercept : ℚ) (P : ZPivot) : Prop :=
  P.price > (slope * P.idx + intercept) * (1 + CONTAIN_TOL_PCT)

instance (slope intercept : ℚ) (P : ZPivot) :
    Decidable (breachesResistance slope intercept P) := by
  unfold breachesResistance; infer_instance

/-- The containment loop of `pickPrimarySupport`: counts pivot breaches,
breaking out as soon as the count exceeds `CONTAIN_MAX_VIOLS`. -/
def violLoopSupport (slope intercept : ℚ) : List ZPivot → ℕ → ℕ
  | [], acc => acc
  | P :: rest, acc =>
    if breachesSupport slope intercept P then
      if acc + 1 > CONTAIN_MAX_VIOLS then acc + 1
      else violLoopSupport slope intercept rest (acc + 1)
    else violLoopSupport slope intercept rest acc

/-- The containment loop of `pickPrimaryResistance`. -/
def violLoopResistance (slope intercept : ℚ) : List ZPivot → ℕ → ℕ
  | [], acc => acc
  | P :: rest, acc =>
    if breachesResistance slope intercept P then
      if acc + 1 > CONTAIN_MAX_VIOLS then acc + 1
      else violLoopResistance slope intercept rest (acc + 1)
    else violLoopResistance slope intercept rest acc

/-- All pivot pairs `(A, B)` with `A` before `B`, in the double-loop
enumeration order of the source (`a` outer, `b` inner). -/
def pairsOf : List ZPivot → List (ZPivot × ZPivot)
  | [] => []
  | x :: xs => xs.map (fun y => (x, y)) ++ pairsOf xs

/-- One step of `pickPrimarySupport`'s candidate scan: skip if the anchor gap
is under `MIN_GAP_BARS` or the containment test fails, otherwise keep the
candidate with maximal slope (strict `>`, so the first found wins ties). -/
def supportStep (ps : List ZPivot) (best : Option Cand) (pr : ZPivot × ZPivot) :
    Option Cand :=
  let A := pr.1
  let B := pr.2
  if (B.idx : ℤ) - (A.idx : ℤ) < MIN_GAP_BARS then best
  else
    let slope := (B.price - A.price) / ((B.idx : ℚ) - (A.idx : ℚ))
    let intercept := A.price - slope * A.idx
    if violLoopSupport slope intercept (ps.filter (fun p => A.idx ≤ p.idx)) 0 >
        CONTAIN_MAX_VIOLS then best
    else
      match best with
      | none => some ⟨slope, intercept, A, B⟩
      | some b => if slope > b.slope then some ⟨slope, intercept, A, B⟩ else some b

/-- One step of `pickPrimaryResistance`'s scan: keeps the candidate with
minimal slope (strict `<`). -/
def resistanceStep (ps : List ZPivot) (best : Option Cand) (pr : ZPivot × ZPivot) :
    Option Cand :=
  let A := pr.1
  let B := pr.2
  if (B.idx : ℤ) - (A.idx : ℤ) < MIN_GAP_BARS then best
  else
    let slope := (B.price - A.price) / ((B.idx : ℚ) - (A.idx : ℚ))
    let intercept := A.price - slope * A.idx
    if violLoopResistance slope intercept (ps.filter (fun p => A.idx ≤ p.idx)) 0 >
        CONTAIN_MAX_VIOLS then best
    else
      match best with
      | none => some ⟨slope, intercept, A, B⟩
      | some b => if slope < b.slope then some ⟨slope, intercept, A, B⟩ else some b

/-- `pickPrimarySupport(pivotsLows)`. -/
def pickPrimarySupport (ps : List ZPivot) : Option Cand :=
  (pairsOf ps).foldl (supportStep ps) none

/-- `pickPrimaryResistance(pivotsHighs)`. -/
def pickPrimaryResistance (ps : List ZPivot) : Option Cand :=
  (pairsOf ps).foldl (resistanceStep ps) none

/-- Fixture: two low pivots 20 bars apart for the C5 witness. -/
def demoLows : List ZPivot := [⟨0, 100⟩, ⟨20, 110⟩]

/-- Fixture: two high pivots 20 bars apart for the C5 witness. -/
def demoHighs : List ZPivot := [⟨0, 110⟩, ⟨20, 100⟩]

/-- What acceptance guarantees for a primary support line: the anchors are
pivots of the input set, their index gap is at least `MIN_GAP_BARS`, the line
is the one through the anchors, and at most `CONTAIN_MAX_VIOLS` same-type
pivots at or after the first anchor breach it beyond the tolerance. -/
def supportInvariant (ps : List ZPivot) (c : Cand) : Prop :=
  c.A ∈ ps ∧ c.B ∈ ps ∧
  MIN_GAP_BARS ≤ (c.B.idx : ℤ) - (c.A.idx : ℤ) ∧
  c.slope = (c.B.price - c.A.price) / ((c.B.idx : ℚ) - (c.A.idx : ℚ)) ∧
  c.intercept = c.A.price - c.slope * c.A.idx ∧
  (ps.filter (fun p => c.A.idx ≤ p.idx)).countP
      (fun p => decide (breachesSupport c.slope c.intercept p)) ≤ CONTAIN_MAX_VIOLS

instance (ps : List ZPivot) (c : Cand) : Decidable (supportInvariant ps c) := by
  unfold supportInvariant; infer_instance

/-- The mirror property for a primary resistance line. -/
def resistanceInvariant (ps : List ZPivot) (c : Cand) : Prop :=
  c.A ∈ ps ∧ c.B ∈ ps ∧
  MIN_GAP_BARS ≤ (c.B.idx : ℤ) - (c.A.idx : ℤ) ∧
  c.slope = (c.B.price - c.A.price) / ((c.B.idx : ℚ) - (c.A.idx : ℚ)) ∧
  c.intercept = c.A.price - c.slope * c.A.idx ∧
  (ps.filter (fun p => c.A.idx ≤ p.idx)).countP
      (fun p => decide (breachesResistance c.slope c.intercept p)) ≤ CONTAIN_MAX_VIOLS

instance (ps : List ZPivot) (c : Cand) : Decidable (resistanceInvariant ps c) := by
  unfold resistanceInvariant; infer_instance

/-! ## VWAP bands (edge-data.js blocks, data.js levels block) -/

/-- A price bar as consumed by the VWAP loops: `b[1..5]` of a kline row. -/
structure Bar where
  o : ℚ
  h : ℚ
  l : ℚ
  c : ℚ
  v : ℚ
deriving DecidableEq, Repr

/-- Accumulated moments `Σv`, `Σp·v`, `Σp²·v`. -/
structure Moments where
  vSum : ℚ
  pvSum : ℚ
  pv2 : ℚ
deriving DecidableEq, Repr

/-- The accumulation loop shared by the session, weekly and data.js VWAPs:
`px = (open+high+low+close)/4`, `vSum += v`, `pvSum += px·v`, `pv2 += px²·v`. -/
def vwapMoments (bars : List Bar) : Moments :=
  bars.foldl
    (fun m b =>
      let px := (b.o + b.h + b.l + b.c) / 4
      ⟨m.vSum + b.v, m.pvSum + px * b.v, m.pv2 + px * px * b.v⟩)
    ⟨0, 0, 0⟩

/-- `sessionVwap = vSum ? (pvSum / vSum) : +last1m[0][4]` (edge-data.js). -/
def sessionVwapOf (bars : List Bar) (lastPx : ℚ) : ℚ :=
  let m := vwapMoments bars
  if m.vSum ≠ 0 then m.pvSum / m.vSum else lastPx

/-- The variance under the square root of `sigmaSess`:
`Math.max(vSum ? (pv2/vSum − vwap²) : 0, 0)` (edge-data.js). -/
def sessionVarOf (bars : List Bar) (lastPx : ℚ) : ℚ :=
  let m := vwapMoments bars
  jmax (if m.vSum ≠ 0 then
      m.pv2 / m.vSum - sessionVwapOf bars lastPx * sessionVwapOf bars lastPx
    else 0) 0

/-- `weeklyVwap` (edge-data.js): textually the same computation on the weekly
bar window. -/
def weeklyVwapOf (bars : List Bar) (lastPx : ℚ) : ℚ :=
  let m := vwapMoments bars
  if m.vSum ≠ 0 then m.pvSum / m.vSum else lastPx

/-- The variance under the square root of `sigmaWeek` (edge-data.js). -/
def weeklyVarOf (bars : List Bar) (lastPx : ℚ) : ℚ :=
  let m := vwapMoments bars
  jmax (if m.vSum ≠ 0 then
      m.pv2 / m.vSum - weeklyVwapOf bars lastPx * weeklyVwapOf bars lastPx
    else 0) 0

/-- The seven published levels `vwap` and `vwap ± {1, 1.5, 2}·σ`, each through
`+(…).toFixed(2)`. -/
structure VwapBandSet where
  vwap : ℚ
  u1 : ℚ
  l1 : ℚ
  u15 : ℚ
  l15 : ℚ
  u2 : ℚ
  l2 : ℚ
deriving DecidableEq, Repr

/-- Band construction from a vwap and a sigma (edge-data.js lines 394-401 and
418-425; `σ` stands for `Math.sqrt` of the floored variance, which is the
non-negative square root). -/
def vwapBandsOf (vwap σ : ℚ) : VwapBandSet :=
  ⟨round2 vwap,
   round2 (vwap + σ), round2 (vwap - σ),
   round2 (vwap + (3/2) * σ), round2 (vwap - (3/2) * σ),
   round2 (vwap + 2 * σ), round2 (vwap - 2 * σ)⟩

/-- The band-ordering property of C6. -/
def bandOrdered (B : VwapBandSet) : Prop :=
  B.l2 ≤ B.l15 ∧ B.l15 ≤ B.l1 ∧ B.l1 ≤ B.vwap ∧
  B.vwap ≤ B.u1 ∧ B.u1 ≤ B.u15 ∧ B.u15 ≤ B.u2

instance (B : VwapBandSet) : Decidable (bandOrdered B) := by
  unfold bandOrdered; infer_instance

/-- The `data.js` session VWAP: `vwap = pvSum / vSum` with NO zero-volume
guard (lines 249-256).  When `vSum = 0` the JS division yields `NaN` (all
volumes zero) or `±Infinity`; that non-number outcome is modelled as `none`. -/
def dataJsVwap (bars : List Bar) : Option ℚ :=
  let m := vwapMoments bars
  if m.vSum = 0 then none else some (m.pvSum / m.vSum)

/-- A bar window whose total traded volume is zero. -/
def zeroVolBar : Bar := ⟨100, 101, 99, 100, 0⟩

/-! ## Quality scoring, regime gates and de-duplication (alert.js) -/

/-- Play direction strings `"LONG" | "SHORT" | "BREAK"`. -/
inductive Dir
  | LONG
  | SHORT
  | BREAK
deriving DecidableEq, Repr

/-- The `dataD.relative` volume labels. -/
inductive RelVol
  | veryHigh
  | high
  | normal
  | low
deriving DecidableEq, Repr

/-- Per-timeframe `dataA` fields the scorer reads (through `$`). -/
structure SectionA where
  ema50 : ℚ
  atrPct : ℚ
deriving DecidableEq, Repr

/-- Per-timeframe `dataC` fields the scorer reads. -/
structure SectionC where
  roc10 : ℚ
  roc20 : ℚ
deriving DecidableEq, Repr

/-- The `dataE` field the scorer reads. -/
structure SectionE where
  stressIndex : ℚ
deriving DecidableEq, Repr

/-- Snapshot values whose access is guarded in the source (`?.`, `|| {}`,
`$()` coalescing): an absent value is `none`.  `fundingZ` models
`parseFloat(d.dataB.fundingZ)` where `none` stands for `NaN` (all comparisons
against it are false). -/
structure SnapCore where
  price : ℚ
  relative15m : Option RelVol
  fundingZ : Option ℚ
  liqLong1h : Option ℚ
  liqShort1h : Option ℚ
  vwapLevel : Option ℚ
  vwapUpper : Option ℚ
  vwapLower : Option ℚ
  poc4h : Option ℚ
  neckline : Option ℚ
  neckBreak : Bool
  hh20 : Option ℚ
  avwapCycle : Option ℚ
deriving DecidableEq, Repr

/-- A full snapshot: every section `computeQualityScore` dereferences without
a guard (`dataA["15m"/"1h"/"4h"]`, `dataC["15m"]`, `dataE`) is present. -/
structure Snap where
  a15 : SectionA
  a1h : SectionA
  a4h : SectionA
  c15 : SectionC
  stressIndex : ℚ
  core : SnapCore
deriving DecidableEq, Repr

/-- A snapshot in which the unguarded sections may be absent (for C10). -/
structure SnapOpt where
  a15 : Option SectionA
  a1h : Option SectionA
  a4h : Option SectionA
  c15 : Option SectionC
  e : Option SectionE
  core : SnapCore
deriving DecidableEq, Repr

/-- The `_gateInfo` diagnostics attached by the gate loop. -/
structure GateInfo where
  baseGate : ℤ
  gateAdj : ℤ
  finalGate : ℤ
  deny : Bool
deriving DecidableEq, Repr

/-- A candidate play as produced by `evaluateSignals` and annotated by the
gate loop (`quality`, `belowGate`, `_gateInfo` start unset). -/
structure Play where
  id : ℤ
  dir : Dir
  name : String
  entry : List ℚ
  stop : ℚ
  tp1 : ℚ
  lev : ℤ × ℤ
  quality : Option ℤ := none
  belowGate : Bool := false
  gateInfo : Option GateInfo := none
deriving DecidableEq, Repr

/-- `WEIGHTS[id] || WEIGHTS.default` (align, momentum, crowd, structure, risk). -/
def weightsFor (id : ℤ) : List ℚ :=
  if id = 1 then [1, 1, 1, 12/10, 8/10]
  else if id = 2 then [1, 1, 1, 12/10, 8/10]
  else if id = 3 then [7/10, 1, 15/10, 6/10, 12/10]
  else if id = 4 then [8/10, 1, 13/10, 7/10, 12/10]
  else if id = 5 then [1, 1, 12/10, 9/10, 9/10]
  else if id = 6 then [9/10, 11/10, 1, 1, 1]
  else if id = 7 then [9/10, 12/10, 11/10, 8/10, 1]
  else if id = 8 then [1, 1, 13/10, 1, 7/10]
  else if id = 9 then [1, 12/10, 12/10, 9/10, 7/10]
  else [1, 1, 1, 1, 1]

/-- `MIN_GATE[id] || 5`. -/
def minGate (id : ℤ) : ℤ :=
  if id = 1 then 6 else if id = 2 then 6 else if id = 3 then 5
  else if id = 4 then 5 else if id = 5 then 6 else if id = 6 then 5
  else if id = 7 then 5 else if id = 8 then 5 else if id = 9 then 5 else 5

/-- `pct = (a,b) => b ? ((a-b)/b*100) : 0`. -/
def pctQ (a b : ℚ) : ℚ := if b ≠ 0 then (a - b) / b * 100 else 0

/-- `vwapBandWidthPct(d)`: symmetric width when all three levels are truthy,
`pct(up,vw)` fallback when only upper and mid are, else `null`. -/
def vwapBandWidthPct (d : SnapCore) : Option ℚ :=
  let up := dollar d.vwapUpper
  let vw := dollar d.vwapLevel
  let lo := dollar d.vwapLower
  if up ≠ 0 ∧ lo ≠ 0 ∧ vw ≠ 0 then some ((up - lo) / (2 * vw) * 100)
  else if up ≠ 0 ∧ vw ≠ 0 then some (pctQ up vw)
  else none

/-- The band-width branch of `playBonus` for play 2 (AVWAP reclaim). -/
def bonusBand2 (bw : Option ℚ) : ℤ :=
  match bw with
  | some b => if b ≤ 3/2 then 2 else 1
  | none => 1

/-- The band-width branch of `playBonus` for play 8 (VWAP fade). -/
def bonusBand8 (bw : Option ℚ) : ℤ :=
  match bw with
  | some b => if b ≤ 3/2 then 2 else if b ≤ 5/2 then 1 else 0
  | none => 0

/-- `playBonus(p,d)`: the tiered catalyst bonus (0/1/2) per signal type. -/
def playBonus (p : Play) (d : SnapCore) : ℤ :=
  let liq1h := jmax (dollar d.liqLong1h) (dollar d.liqShort1h)
  let bandW := vwapBandWidthPct d
  if p.id = 2 then (if d.neckBreak then bonusBand2 bandW else 0)
  else if p.id = 4 then
    (if liq1h ≥ 80000000 ∨ d.neckBreak then 2
     else if liq1h ≥ 40000000 then 1 else 0)
  else if p.id = 8 then (if d.neckBreak then bonusBand8 bandW else 0)
  else 0

/-- `tol = 0.0005` of the alignment factor. -/
def tolAlign : ℚ := 5/10000

/-- `sign = v => (v>tol)? 1 : (v<-tol? -1 : 0)`. -/
def signTol (v : ℚ) : ℤ :=
  if v > tolAlign then 1 else if v < -tolAlign then -1 else 0

/-- Factor 1 ▸ Alignment: sign agreement of `(price−ema50)/price` on
15m/1h/4h with a dead zone. -/
def alignFactor (d : Snap) : ℕ :=
  let a15 := signTol ((d.core.price - d.a15.ema50) / d.core.price)
  let a1h := signTol ((d.core.price - d.a1h.ema50) / d.core.price)
  let a4h := signTol ((d.core.price - d.a4h.ema50) / d.core.price)
  let nonZero := [a15, a1h, a4h].filter (fun x => decide (x ≠ 0))
  let allSame := nonZero.length = 3 ∧ ∀ x ∈ nonZero, x = nonZero.headD 0
  let anyTwoSame :=
    (a15 ≠ 0 ∧ a15 = a1h) ∨ (a15 ≠ 0 ∧ a15 = a4h) ∨ (a1h ≠ 0 ∧ a1h = a4h)
  if allSame then 2 else if anyTwoSame then 1 else 0

/-- Factor 2 ▸ Momentum: `max(|roc10|,|roc20|)` on 15m against the 15m ATR%. -/
def momentumFactor (d : Snap) : ℕ :=
  let impulse := jmax (jabs d.c15.roc10) (jabs d.c15.roc20)
  if impulse ≥ d.a15.atrPct * 2 then 2
  else if impulse ≥ d.a15.atrPct then 1 else 0

/-- `volHigh`: relative 15m volume is "high" or "very high". -/
def volHighB (d : SnapCore) : Bool :=
  decide (d.relative15m = some RelVol.high) ||
  decide (d.relative15m = some RelVol.veryHigh)

/-- `fundOpp`: funding bias opposing the direction (false for BREAK, and
false for a NaN fundingZ). -/
def fundOppB (fz : Option ℚ) (dir : Dir) : Bool :=
  match dir, fz with
  | Dir.BREAK, _ => false
  | _, none => false
  | Dir.LONG, some z => decide (z < 0)
  | Dir.SHORT, some z => decide (z > 0)

/-- `liqBias`: liquidation imbalance favoring the direction (false for BREAK). -/
def liqBiasB (d : SnapCore) (dir : Dir) : Bool :=
  match dir with
  | Dir.BREAK => false
  | Dir.LONG => decide (dollar d.liqShort1h > dollar d.liqLong1h)
  | Dir.SHORT => decide (dollar d.liqLong1h > dollar d.liqShort1h)

/-- Factor 3 ▸ Crowd: 2 when all of volHigh/fundOpp/liqBias hold, 1 when any
two, else 0. -/
def crowdFactor (d : SnapCore) (p : Play) : ℕ :=
  let v := volHighB d
  let f := fundOppB d.fundingZ p.dir
  let q := liqBiasB d p.dir
  if v && f && q then 2
  else if (v && f) || (f && q) || (v && q) then 1 else 0

/-- Factor 4 ▸ Structure: count of VWAP / 4h POC / neckline within the
ATR-scaled proximity tolerance of price. -/
def structureFactor (d : Snap) : ℕ :=
  let price := d.core.price
  let vwap := dollar d.core.vwapLevel
  let poc := dollar d.core.poc4h
  let neck := dollar d.core.neckline
  let tolPct := jmax (35/100 * d.a15.atrPct) (1/2)
  let near : ℚ → Bool := fun lvl =>
    decide (lvl ≠ 0) && decide (jabs (price - lvl) / price * 100 ≤ tolPct)
  let confl : ℕ := (if near vwap then 1 else 0) + (if near poc then 1 else 0) +
    (if neck ≠ 0 ∧ near neck then 1 else 0)
  if confl ≥ 2 then 2 else if confl ≥ 1 then 1 else 0

/-- Factor 5 ▸ Risk: inverse of the stress index. -/
def riskFactor (stress : ℚ) : ℕ :=
  if stress < 3 then 2 else if stress < 5 then 1 else 0

/-- `rawFactors = [align, momentum, crowd, structure, risk]`. -/
def rawFactors (d : Snap) (p : Play) : List ℕ :=
  [alignFactor d, momentumFactor d, crowdFactor d.core p, structureFactor d,
   riskFactor d.stressIndex]

/-- The weighting/scaling tail of `computeQualityScore`:
`weighted = rawFactors.reduce((s,v,i)=>s+v*w[i],0)`,
`maxRaw = w.reduce((s,x)=>s+x,0)*2`,
`score = Math.min(10, Math.round((weighted/maxRaw)*10) + bonus)`. -/
def scoreCore (factors : List ℕ) (w : List ℚ) (bonus : ℤ) : ℤ :=
  let weighted := (List.zipWith (fun (v : ℕ) (wi : ℚ) => (v : ℚ) * wi) factors w).sum
  let maxRaw := w.sum * 2
  jminI 10 (jround (weighted / maxRaw * 10) + bonus)

/-- `computeQualityScore(d, play)`. -/
def computeQualityScore (d : Snap) (p : Play) : ℤ :=
  scoreCore (rawFactors d p) (weightsFor p.id) (playBonus p d.core)

/-- `computeQualityScore` over a snapshot with possibly-missing sections: the
function dereferences `dataA[tf]`, `dataC["15m"]` and `dataE` without guards,
so a missing section makes the JS throw a `TypeError` — modelled as `none`. -/
def computeQualityScoreOpt (d : SnapOpt) (p : Play) : Option ℤ :=
  match d.a15, d.a1h, d.a4h, d.c15, d.e with
  | some a15, some a1h, some a4h, some c15, some e =>
      some (computeQualityScore ⟨a15, a1h, a4h, c15, e.stressIndex, d.core⟩ p)
  | _, _, _, _, _ => none

/-- The `htf` regime label. -/
inductive Htf
  | up
  | down
  | range
deriving DecidableEq, Repr

/-- The regime record consumed by `regimeAdjustGate`. -/
structure Regime where
  htf : Htf
  adxStrong : Bool
  ltfCompression : Bool
  ltfExpansion : Bool
deriving DecidableEq, Repr

/-- `regimeAdjustGate(p, d, R)`: per-signal gate adjustment and denial. -/
def regimeAdjustGate (p : Play) (neckBreak : Bool) (R : Regime) : ℤ × Bool :=
  let oppToHTF :=
    (R.htf = Htf.up ∧ p.dir = Dir.SHORT) ∨ (R.htf = Htf.down ∧ p.dir = Dir.LONG)
  if p.id = 1 ∨ p.id = 2 ∨ p.id = 6 ∨ p.id = 9 then
    ((if R.htf = Htf.range then 1 else 0) +
     (if R.adxStrong ∧ oppToHTF then 2 else 0), false)
  else if p.id = 4 ∨ p.id = 8 then
    ((if R.adxStrong ∧ R.htf ≠ Htf.range ∧ ¬neckBreak then 2 else 0) +
     (if R.ltfExpansion ∧ ¬R.ltfCompression then 1 else 0), false)
  else if p.id = 5 ∨ p.id = 7 then
    (0, !R.ltfCompression)
  else if p.id = 3 then
    ((if R.adxStrong then (if oppToHTF then 2 else 1) else 0), false)
  else (0, false)

/-- One iteration of the gate loop (`for (const p of plays) { … }`): sets
`quality` (computing it when unset), `belowGate` and `_gateInfo`, leaving all
other fields untouched. -/
def gateStep (d : Snap) (R : Regime) (p : Play) : Play :=
  let ga := regimeAdjustGate p d.core.neckBreak R
  let baseGate := minGate p.id
  let gate := jmaxI 1 (baseGate + ga.1)
  let q := p.quality.getD (computeQualityScore d p)
  { p with
      quality := some q,
      belowGate := if ga.2 then true else decide (q < gate),
      gateInfo := some ⟨baseGate, ga.1, gate, ga.2⟩ }

/-- The whole gate loop over the detected plays. -/
def applyGates (d : Snap) (R : Regime) (plays : List Play) : List Play :=
  plays.map (gateStep d R)

/-- A de-dup key, modelling the string `«id»:«dir»:«rounded level»`. -/
abbrev PlayKey := ℤ × Dir × ℤ

/-- `playKey(p,d)`: stable reference level per play id, price bucket fallback. -/
def playKey (p : Play) (d : SnapCore) : PlayKey :=
  let priceBucket := jround (d.price / 50) * 50
  if p.id = 1 then (1, p.dir, jround (dollar d.hh20))
  else if p.id = 2 then (2, p.dir, jround (dollar d.avwapCycle))
  else if p.id = 8 then
    (8, p.dir, jround (if p.dir = Dir.LONG then dollar d.vwapLower else dollar d.vwapUpper))
  else (p.id, p.dir, priceBucket)

/-- The de-dup cache `{ ts, plays }`. -/
structure Cache where
  ts : ℤ
  plays : List (PlayKey × ℤ)
deriving DecidableEq, Repr

/-- `cache.plays?.[key] || 0`. -/
def lookupL (l : List (PlayKey × ℤ)) (k : PlayKey) : ℤ :=
  match l.find? (fun e => decide (e.1 = k)) with
  | some e => e.2
  | none => 0

/-- `cache.plays[key] = nowTs` (JS object assignment: overwrite this key,
keep the rest). -/
def setKey (l : List (PlayKey × ℤ)) (k : PlayKey) (v : ℤ) : List (PlayKey × ℤ) :=
  (k, v) :: l.filter (fun e => decide (e.1 ≠ k))

/-- `TTL = 30*60*1000` (per-play de-dup window, ms). -/
def TTLms : ℤ := 30 * 60 * 1000

/-- The global mute window `3_600_000` ms (60 minutes). -/
def muteWindowMs : ℤ := 3600000

/-- `p.quality >= 8` (A-tier; false when quality is unset). -/
def aTier (p : Play) : Bool :=
  match p.quality with
  | some q => decide (8 ≤ q)
  | none => false

/-- `globalMuted = !isDbg && (nowTs-(cache.ts||0) < 3_600_000) && !hasATier`. -/
def globalMutedB (isDbg : Bool) (now : ℤ) (c : Cache) (sendable : List Play) : Bool :=
  !isDbg && decide (now - c.ts < muteWindowMs) && !(sendable.any aTier)

/-- The per-play TTL filter producing `fresh`. -/
def freshPlays (now : ℤ) (c : Cache) (d : SnapCore) (sendable : List Play) : List Play :=
  sendable.filter (fun p => !decide (now - lookupL c.plays (playKey p d) < TTLms))

/-- One emission tick over the already-gated `sendable` plays: global mute,
per-play TTL filter, emission, then (when not in debug) the cache update
`cache.ts = nowTs; cache.plays[key] = nowTs` for each emitted play. -/
def emitTick (isDbg : Bool) (now : ℤ) (c : Cache) (d : SnapCore)
    (sendable : List Play) : List Play × Cache :=
  if globalMutedB isDbg now c sendable then ([], c)
  else
    let fresh := freshPlays now c d sendable
    if fresh.isEmpty then ([], c)
    else
      (fresh,
       if isDbg then c
       else ⟨now, fresh.foldl (fun acc p => setKey acc (playKey p d) now) c.plays⟩)

/-! ### Concrete fixtures for the alert.js witnesses -/

def core0 : SnapCore :=
  { price := 2000, relative15m := some RelVol.high, fundingZ := some (-1),
    liqLong1h := some 1000000, liqShort1h := some 2000000,
    vwapLevel := some 2000, vwapUpper := some 2010, vwapLower := some 1990,
    poc4h := some 2005, neckline := some 1995, neckBreak := false,
    hh20 := some 2020, avwapCycle := some 1950 }

def secA0 : SectionA := ⟨1990, 1/2⟩

def secC0 : SectionC := ⟨1, 2⟩

def secE0 : SectionE := ⟨2⟩

def snap0 : Snap := ⟨secA0, secA0, secA0, secC0, 2, core0⟩

def snapOptFull : SnapOpt := ⟨some secA0, some secA0, some secA0, some secC0, some secE0, core0⟩

def snapOptNoA15 : SnapOpt := ⟨none, some secA0, some secA0, some secC0, some secE0, core0⟩

def snapOptNoC15 : SnapOpt := ⟨some secA0, some secA0, some secA0, none, some secE0, core0⟩

def snapOptNoE : SnapOpt := ⟨some secA0, some secA0, some secA0, some secC0, none, core0⟩

def play0 : Play :=
  { id := 3, dir := Dir.LONG, name := "Funding Fade", entry := [2000],
    stop := 1988, tp1 := 2015, lev := (5, 15) }

/-- A sendable A-tier play (quality already set by the gate loop). -/
def playA : Play := { play0 with quality := some 9 }

def regime0 : Regime := ⟨Htf.up, false, true, false⟩

def cache0 : Cache := ⟨0, []⟩

end ETH

namespace ETH

/-- C8: each indicator returns its degenerate value on short input. -/
theorem indicator_short_input_degenerate
    (a h l c : List ℚ) (p : ℕ)
    (hema : a.length < p) (hrsi : a.length < p + 1) (hatr : h.length < p + 1) :
    ema a p = 0 ∧ rsi a p = 0 ∧ atr h l c p = 0 := by
  refine ⟨?_, ?_, ?_⟩
  · simp [ema, hema]
  · simp [rsi, hrsi]
  · simp [atr, hatr]

/-- Witness for C8 at a concrete short series. -/
theorem indicator_short_input_degenerate_witness :
    ema [1, 2, 3] 14 = 0 ∧ rsi [1, 2, 3] 14 = 0 ∧ atr [1, 2] [0, 1] [1, 1] 14 = 0 :=
  indicator_short_input_degenerate [1, 2, 3] [1, 2] [0, 1] [1, 1] 14
    (by decide) (by decide) (by decide)

set_option maxRecDepth 8000 in
/-- C4 counterexample: on the 30-bar 1%-per-bar rising series with `pct=0.06`
the ZigZag detector does return exactly one pivot, but it is located at the
END of the series (index 29, the running extreme of the open leg), not at the
start (index 0) as the claim states. -/
theorem zigzag_rising_single_pivot_not_at_start :
    (zigzagPivots risingSeries (6 / 100)).length = 1 ∧
    ((zigzagPivots risingSeries (6 / 100)).getD 0 ⟨0, 0⟩).idx ≠ 0 := by
  decide

set_option maxRecDepth 8000 in
/-- C4 (amended): the rising 30-bar series yields exactly one pivot, at the
last bar (index 29, price `100·1.01²⁹`) — the final pivot the detector always
emits at the last extreme of the open leg; no pivot is confirmed by a ≥6%
reversal, and the detector attaches no High/Low classification. -/
theorem zigzag_rising_single_pivot_at_end :
    zigzagPivots risingSeries (6 / 100)
      = [⟨29, ((100 * 101 ^ 29 : ℕ) : ℚ) / ((100 ^ 29 : ℕ) : ℚ)⟩] := by
  decide

/-- The early-exit violation loop agrees with the plain breach count whenever
it stays within the allowance. -/
theorem violLoopSupport_eq_countP (slope intercept : ℚ) :
    ∀ (l : List ZPivot) (acc : ℕ),
      violLoopSupport slope intercept l acc ≤ CONTAIN_MAX_VIOLS →
      violLoopSupport slope intercept l acc
        = acc + l.countP (fun p => decide (breachesSupport slope intercept p))
  | [], acc, _ => by simp [violLoopSupport]
  | P :: rest, acc, h => by
    by_cases hb : breachesSupport slope intercept P
    · rw [violLoopSupport] at h ⊢
      simp only [if_pos hb] at h ⊢
      by_cases hover : acc + 1 > CONTAIN_MAX_VIOLS
      · simp only [if_pos hover] at h; omega
      · simp only [if_neg hover] at h ⊢
        rw [violLoopSupport_eq_countP slope intercept rest (acc + 1) h]
        simp [List.countP_cons, hb]
        omega
    · rw [violLoopSupport] at h ⊢
      simp only [if_neg hb] at h ⊢
      rw [violLoopSupport_eq_countP slope intercept rest acc h]
      simp [List.countP_cons, hb]

/-- Mirror of `violLoopSupport_eq_countP` for resistance lines. -/
theorem violLoopResistance_eq_countP (slope intercept : ℚ) :
    ∀ (l : List ZPivot) (acc : ℕ),
      violLoopResistance slope intercept l acc ≤ CONTAIN_MAX_VIOLS →
      violLoopResistance slope intercept l acc
        = acc + l.countP (fun p => decide (breachesResistance slope intercept p))
  | [], acc, _ => by simp [violLoopResistance]
  | P :: rest, acc, h => by
    by_cases hb : breachesResistance slope intercept P
    · rw [violLoopResistance] at h ⊢
      simp only [if_pos hb] at h ⊢
      by_cases hover : acc + 1 > CONTAIN_MAX_VIOLS
      · simp only [if_pos hover] at h; omega
      · simp only [if_neg hover] at h ⊢
        rw [violLoopResistance_eq_countP slope intercept rest (acc + 1) h]
        simp [List.countP_cons, hb]
        omega
    · rw [violLoopResistance] at h ⊢
      simp only [if_neg hb] at h ⊢
      rw [violLoopResistance_eq_countP slope intercept rest acc h]
      simp [List.countP_cons, hb]

/-- Members of `pairsOf` are members of the pivot list. -/
theorem mem_pairsOf : ∀ (ps : List ZPivot) (pr : ZPivot × ZPivot),
    pr ∈ pairsOf ps → pr.1 ∈ ps ∧ pr.2 ∈ ps
  | [], pr, h => by simp [pairsOf] at h
  | x :: xs, pr, h => by
    rw [pairsOf, List.mem_append] at h
    rcases h with h | h
    · rcases List.mem_map.mp h with ⟨y, hy, rfl⟩
      exact ⟨List.mem_cons_self x xs, List.mem_cons_of_mem x hy⟩
    · rcases mem_pairsOf xs pr h with ⟨h1, h2⟩
      exact ⟨List.mem_cons_of_mem x h1, List.mem_cons_of_mem x h2⟩

/-- A `supportStep` keeps the invariant: skipped pairs leave the accumulator,
accepted pairs satisfy the gap and containment conditions. -/
theorem supportStep_preserves (ps : List ZPivot) (best : Option Cand)
    (pr : ZPivot × ZPivot) (hpr : pr.1 ∈ ps ∧ pr.2 ∈ ps)
    (hbest : ∀ c, best = some c → supportInvariant ps c) :
    ∀ c, supportStep ps best pr = some c → supportInvariant ps c := by
  intro c hc
  unfold supportStep at hc
  by_cases hgap : (pr.2.idx : ℤ) - (pr.1.idx : ℤ) < MIN_GAP_BARS
  · rw [if_pos hgap] at hc; exact hbest c hc
  · rw [if_neg hgap] at hc
    set slope := (pr.2.price - pr.1.price) / ((pr.2.idx : ℚ) - (pr.1.idx : ℚ)) with hs
    set intercept := pr.1.price - slope * pr.1.idx with hi
    by_cases hviol :
        violLoopSupport slope intercept (ps.filter (fun p => pr.1.idx ≤ p.idx)) 0 >
          CONTAIN_MAX_VIOLS
    · rw [if_pos hviol] at hc; exact hbest c hc
    · rw [if_neg hviol] at hc
      have hcount : (ps.filter (fun p => pr.1.idx ≤ p.idx)).countP
          (fun p => decide (breachesSupport slope intercept p)) ≤ CONTAIN_MAX_VIOLS := by
        have := violLoopSupport_eq_countP slope intercept
          (ps.filter (fun p => pr.1.idx ≤ p.idx)) 0 (by omega)
        omega
      match hb : best with
      | none =>
        have hc2 : some (⟨slope, pr.1.price - slope * pr.1.idx, pr.1, pr.2⟩ : Cand)
            = some c := hc
        cases hc2
        refine ⟨hpr.1, hpr.2, ?_, rfl, rfl, hcount⟩
        show MIN_GAP_BARS ≤ (pr.2.idx : ℤ) - (pr.1.idx : ℤ)
        omega
      | some b =>
        have hc2 : (if slope > b.slope then
            some (⟨slope, pr.1.price - slope * pr.1.idx, pr.1, pr.2⟩ : Cand)
          else some b) = some c := hc
        by_cases hsl : slope > b.slope
        · rw [if_pos hsl] at hc2
          cases hc2
          refine ⟨hpr.1, hpr.2, ?_, rfl, rfl, hcount⟩
          show MIN_GAP_BARS ≤ (pr.2.idx : ℤ) - (pr.1.idx : ℤ)
          omega
        · rw [if_neg hsl] at hc2
          cases hc2
          exact hbest _ rfl

/-- Mirror of `supportStep_preserves` for resistance lines. -/
theorem resistanceStep_preserves (ps : List ZPivot) (best : Option Cand)
    (pr : ZPivot × ZPivot) (hpr : pr.1 ∈ ps ∧ pr.2 ∈ ps)
    (hbest : ∀ c, best = some c → resistanceInvariant ps c) :
    ∀ c, resistanceStep ps best pr = some c → resistanceInvariant ps c := by
  intro c hc
  unfold resistanceStep at hc
  by_cases hgap : (pr.2.idx : ℤ) - (pr.1.idx : ℤ) < MIN_GAP_BARS
  · rw [if_pos hgap] at hc; exact hbest c hc
  · rw [if_neg hgap] at hc
    set slope := (pr.2.price - pr.1.price) / ((pr.2.idx : ℚ) - (pr.1.idx : ℚ)) with hs
    set intercept := pr.1.price - slope * pr.1.idx with hi
    by_cases hviol :
        violLoopResistance slope intercept (ps.filter (fun p => pr.1.idx ≤ p.idx)) 0 >
          CONTAIN_MAX_VIOLS
    · rw [if_pos hviol] at hc; exact hbest c hc
    · rw [if_neg hviol] at hc
      have hcount : (ps.filter (fun p => pr.1.idx ≤ p.idx)).countP
          (fun p => decide (breachesResistance slope intercept p)) ≤ CONTAIN_MAX_VIOLS := by
        have := violLoopResistance_eq_countP slope intercept
          (ps.filter (fun p => pr.1.idx ≤ p.idx)) 0 (by omega)
        omega
      match hb : best with
      | none =>
        have hc2 : some (⟨slope, pr.1.price - slope * pr.1.idx, pr.1, pr.2⟩ : Cand)
            = some c := hc
        cases hc2
        refine ⟨hpr.1, hpr.2, ?_, rfl, rfl, hcount⟩
        show MIN_GAP_BARS ≤ (pr.2.idx : ℤ) - (pr.1.idx : ℤ)
        omega
      | some b =>
        have hc2 : (if slope < b.slope then
            some (⟨slope, pr.1.price - slope * pr.1.idx, pr.1, pr.2⟩ : Cand)
          else some b) = some c := hc
        by_cases hsl : slope < b.slope
        · rw [if_pos hsl] at hc2
          cases hc2
          refine ⟨hpr.1, hpr.2, ?_, rfl, rfl, hcount⟩
          show MIN_GAP_BARS ≤ (pr.2.idx : ℤ) - (pr.1.idx : ℤ)
          omega
        · rw [if_neg hsl] at hc2
          cases hc2
          exact hbest _ rfl

/-- Folding `supportStep` over any pair list of members preserves the invariant. -/
theorem support_foldl_inv (ps : List ZPivot) :
    ∀ (l : List (ZPivot × ZPivot)) (acc : Option Cand),
      (∀ pr ∈ l, pr.1 ∈ ps ∧ pr.2 ∈ ps) →
      (∀ c, acc = some c → supportInvariant ps c) →
      ∀ c, l.foldl (supportStep ps) acc = some c → supportInvariant ps c
  | [], acc, _, hacc, c, hc => hacc c hc
  | pr :: rest, acc, hl, hacc, c, hc => by
    rw [List.foldl_cons] at hc
    exact support_foldl_inv ps rest (supportStep ps acc pr)
      (fun q hq => hl q (List.mem_cons_of_mem pr hq))
      (supportStep_preserves ps acc pr (hl pr (List.mem_cons_self pr rest)) hacc)
      c hc

/-- Folding `resistanceStep` over any pair list of members preserves the invariant. -/
theorem resistance_foldl_inv (ps : List ZPivot) :
    ∀ (l : List (ZPivot × ZPivot)) (acc : Option Cand),
      (∀ pr ∈ l, pr.1 ∈ ps ∧ pr.2 ∈ ps) →
      (∀ c, acc = some c → resistanceInvariant ps c) →
      ∀ c, l.foldl (resistanceStep ps) acc = some c → resistanceInvariant ps c
  | [], acc, _, hacc, c, hc => hacc c hc
  | pr :: rest, acc, hl, hacc, c, hc => by
    rw [List.foldl_cons] at hc
    exact resistance_foldl_inv ps rest (resistanceStep ps acc pr)
      (fun q hq => hl q (List.mem_cons_of_mem pr hq))
      (resistanceStep_preserves ps acc pr (hl pr (List.mem_cons_self pr rest)) hacc)
      c hc

/-- C5: every accepted primary support or resistance trendline is anchored on
two pivots of the input set at least `MIN_GAP_BARS` apart, and at most
`CONTAIN_MAX_VIOLS` same-type pivots from the first anchor onward breach the
line by more than the tolerance. -/
theorem trendline_gap_and_containment (ps : List ZPivot) (c : Cand) :
    (pickPrimarySupport ps = some c → supportInvariant ps c) ∧
    (pickPrimaryResistance ps = some c → resistanceInvariant ps c) := by
  constructor
  · intro hc
    exact support_foldl_inv ps (pairsOf ps) none (mem_pairsOf ps)
      (fun c h => by cases h) c hc
  · intro hc
    exact resistance_foldl_inv ps (pairsOf ps) none (mem_pairsOf ps)
      (fun c h => by cases h) c hc

/-- Witness for C5: a concrete accepted support line and resistance line. -/
theorem trendline_gap_and_containment_witness :
    supportInvariant demoLows ⟨1/2, 100, ⟨0, 100⟩, ⟨20, 110⟩⟩ ∧
    resistanceInvariant demoHighs ⟨-(1/2), 110, ⟨0, 110⟩, ⟨20, 100⟩⟩ :=
  ⟨(trendline_gap_and_containment demoLows ⟨1/2, 100, ⟨0, 100⟩, ⟨20, 110⟩⟩).1 (by decide),
   (trendline_gap_and_containment demoHighs ⟨-(1/2), 110, ⟨0, 110⟩, ⟨20, 100⟩⟩).2 (by decide)⟩

/-! ### Bridges from the JS-style helpers to the Mathlib operations -/

theorem jmax_eq_max (a b : ℚ) : jmax a b = max a b := by
  unfold jmax
  split_ifs with h
  · exact (max_eq_right h).symm
  · exact (max_eq_left (le_of_not_le h)).symm

theorem jabs_eq_abs (a : ℚ) : jabs a = |a| := by
  unfold jabs
  split_ifs with h
  · exact (abs_of_neg h).symm
  · exact (abs_of_nonneg (le_of_not_lt h)).symm

theorem jmaxI_eq_max (a b : ℤ) : jmaxI a b = max a b := by
  unfold jmaxI
  split_ifs with h
  · exact (max_eq_right h).symm
  · exact (max_eq_left (le_of_not_le h)).symm

theorem jminI_eq_min (a b : ℤ) : jminI a b = min a b := by
  unfold jminI
  split_ifs with h
  · exact (min_eq_left h).symm
  · exact (min_eq_right (le_of_not_le h)).symm

theorem round2_mono {a b : ℚ} (h : a ≤ b) : round2 a ≤ round2 b := by
  unfold round2 jround
  have : (⌊a * 100 + 1/2⌋ : ℤ) ≤ ⌊b * 100 + 1/2⌋ :=
    Int.floor_le_floor (by linarith)
  have hc : ((⌊a * 100 + 1/2⌋ : ℤ) : ℚ) ≤ ((⌊b * 100 + 1/2⌋ : ℤ) : ℚ) :=
    Int.cast_le.mpr this
  linarith

theorem round2_zero : round2 0 = 0 := by
  unfold round2 jround
  norm_num

theorem round2_hundred : round2 100 = 100 := by
  unfold round2 jround
  norm_num [Int.floor_eq_iff]

/-! ### C6 / C7: VWAP bands -/

/-- C6: with any non-negative sigma (Math.sqrt of the floored variance is the
non-negative root, and the variance is indeed floored at zero), the published
session and weekly band levels are ordered
`l2σ ≤ l1.5σ ≤ l1σ ≤ vwap ≤ u1σ ≤ u1.5σ ≤ u2σ`. -/
theorem vwap_band_ordering (bars : List Bar) (lastPx σ : ℚ) (hσ : 0 ≤ σ) :
    (0 ≤ sessionVarOf bars lastPx ∧ 0 ≤ weeklyVarOf bars lastPx) ∧
    bandOrdered (vwapBandsOf (sessionVwapOf bars lastPx) σ) ∧
    bandOrdered (vwapBandsOf (weeklyVwapOf bars lastPx) σ) := by
  have hvar : ∀ x : ℚ, 0 ≤ jmax x 0 := by
    intro x
    rw [jmax_eq_max]
    exact le_max_right x 0
  have hband : ∀ v : ℚ, bandOrdered (vwapBandsOf v σ) := by
    intro v
    refine ⟨round2_mono (by linarith), round2_mono (by linarith),
      round2_mono (by linarith), round2_mono (by linarith),
      round2_mono (by linarith), round2_mono (by linarith)⟩
  exact ⟨⟨hvar _, hvar _⟩, hband _, hband _⟩

/-- Witness for C6 at a concrete window and sigma. -/
theorem vwap_band_ordering_witness :
    (0:ℚ) ≤ 1 ∧ bandOrdered (vwapBandsOf (sessionVwapOf [] 0) 1) :=
  ⟨by norm_num, (vwap_band_ordering [] 0 1 (by norm_num)).2.1⟩

/-- C7 counterexample: the `data.js` variant has no zero-volume fallback — on
a window of zero total volume its `pvSum/vSum` is not a number (modelled
`none`), not the latest trade price. -/
theorem dataJs_vwap_zero_volume_not_fallback :
    dataJsVwap [zeroVolBar] = none ∧ (vwapMoments [zeroVolBar]).vSum = 0 := by
  decide

/-- C7 (amended): in the edge function (session and weekly computations) a
zero-volume window falls back to the latest trade price with variance 0,
hence `sigma = √0 = 0`; the `data.js` variant lacks the guard. -/
theorem edge_vwap_zero_volume_fallback (bars : List Bar) (lastPx : ℚ)
    (h : (vwapMoments bars).vSum = 0) :
    sessionVwapOf bars lastPx = lastPx ∧ sessionVarOf bars lastPx = 0 ∧
    weeklyVwapOf bars lastPx = lastPx ∧ weeklyVarOf bars lastPx = 0 ∧
    Real.sqrt ((sessionVarOf bars lastPx : ℚ) : ℝ) = 0 := by
  have hses : sessionVwapOf bars lastPx = lastPx := by
    unfold sessionVwapOf
    simp [h]
  have hsesVar : sessionVarOf bars lastPx = 0 := by
    unfold sessionVarOf
    simp [h, jmax]
  have hwk : weeklyVwapOf bars lastPx = lastPx := by
    unfold weeklyVwapOf
    simp [h]
  have hwkVar : weeklyVarOf bars lastPx = 0 := by
    unfold weeklyVarOf
    simp [h, jmax]
  refine ⟨hses, hsesVar, hwk, hwkVar, ?_⟩
  rw [hsesVar]
  simp

/-- Witness for C7's amended theorem at the concrete zero-volume window. -/
theorem edge_vwap_zero_volume_fallback_witness :
    sessionVwapOf [zeroVolBar] 100 = 100 ∧ sessionVarOf [zeroVolBar] 100 = 0 ∧
    weeklyVwapOf [zeroVolBar] 100 = 100 ∧ weeklyVarOf [zeroVolBar] 100 = 0 ∧
    Real.sqrt ((sessionVarOf [zeroVolBar] 100 : ℚ) : ℝ) = 0 :=
  edge_vwap_zero_volume_fallback [zeroVolBar] 100 (by decide)

/-! ### C9: `adx` is bounded in [0,100] -/

theorem jsSliceLast_subset (a : List ℚ) (p : ℕ) :
    ∀ x ∈ jsSliceLast a p, x ∈ a := by
  intro x hx
  unfold jsSliceLast at hx
  split_ifs at hx
  · exact hx
  · exact List.drop_subset _ a hx

theorem jsSliceLast_length_le (a : List ℚ) (p : ℕ) (hp : p ≠ 0) :
    (jsSliceLast a p).length ≤ p := by
  unfold jsSliceLast
  rw [if_neg hp]
  rw [List.length_drop]
  omega

theorem getD_nonneg (l : List ℚ) (hl : ∀ x ∈ l, 0 ≤ x) (i : ℕ) :
    0 ≤ l.getD i 0 := by
  by_cases h : i < l.length
  · rw [List.getD_eq_getElem l 0 h]
    exact hl _ (List.getElem_mem h)
  · rw [List.getD_eq_default l 0 (le_of_not_lt h)]

theorem orOne_pos (x : ℚ) (hx : 0 ≤ x) : 0 < orOne x := by
  unfold orOne
  split_ifs with h
  · norm_num
  · exact lt_of_le_of_ne hx (Ne.symm h)

theorem trList_nonneg (h l c : List ℚ) : ∀ x ∈ trList h l c, 0 ≤ x := by
  intro x hx
  rw [trList] at hx
  rcases List.mem_map.mp hx with ⟨i, _, rfl⟩
  rw [jmax_eq_max, jmax_eq_max, jabs_eq_abs, jabs_eq_abs]
  exact le_trans (abs_nonneg _) (le_max_of_le_right (le_max_left _ _))

theorem dmPlusList_nonneg (h l : List ℚ) : ∀ x ∈ dmPlusList h l, 0 ≤ x := by
  intro x hx
  rw [dmPlusList] at hx
  rcases List.mem_map.mp hx with ⟨i, _, rfl⟩
  dsimp only
  split_ifs with hc
  · exact le_of_lt hc.2
  · exact le_refl 0

theorem dmMinusList_nonneg (h l : List ℚ) : ∀ x ∈ dmMinusList h l, 0 ≤ x := by
  intro x hx
  rw [dmMinusList] at hx
  rcases List.mem_map.mp hx with ⟨i, _, rfl⟩
  dsimp only
  split_ifs with hc
  · exact le_of_lt hc.2
  · exact le_refl 0

theorem sma_nonneg (a : List ℚ) (p : ℕ) (ha : ∀ x ∈ a, 0 ≤ x) : 0 ≤ sma a p := by
  unfold sma
  apply div_nonneg
  · exact List.sum_nonneg (fun x hx => ha x (jsSliceLast_subset a p x hx))
  · exact_mod_cast Nat.zero_le p

theorem sma_le_of_le (a : List ℚ) (p : ℕ) (h100 : ∀ x ∈ a, x ≤ 100) :
    sma a p ≤ 100 := by
  unfold sma
  rcases Nat.eq_zero_or_pos p with hp | hp
  · subst hp
    norm_num
  · have hlen : (jsSliceLast a p).length ≤ p := jsSliceLast_length_le a p (Nat.pos_iff_ne_zero.mp hp)
    have hsum : (jsSliceLast a p).sum ≤ (jsSliceLast a p).length • (100:ℚ) :=
      List.sum_le_card_nsmul _ _ (fun x hx => h100 x (jsSliceLast_subset a p x hx))
    have hsum2 : (jsSliceLast a p).sum ≤ (p:ℚ) * 100 := by
      rw [nsmul_eq_mul] at hsum
      have : ((jsSliceLast a p).length : ℚ) ≤ (p : ℚ) := by exact_mod_cast hlen
      nlinarith
    have hppos : (0:ℚ) < (p:ℚ) := by exact_mod_cast hp
    rw [div_le_iff₀ hppos]
    linarith

theorem wilderSmoothStep_nonneg (p : ℕ) (prev x : ℚ) (hp : 0 ≤ prev) (hx : 0 ≤ x) :
    0 ≤ prev - prev / p + x := by
  rcases Nat.eq_zero_or_pos p with h | h
  · subst h
    push_cast
    rw [div_zero]
    linarith
  · have h1 : (1:ℚ) ≤ (p:ℚ) := by exact_mod_cast h
    have := div_le_self hp h1
    linarith

theorem wilderFold_nonneg (p : ℕ) :
    ∀ (l : List ℚ) (st : List ℚ × ℚ),
      (∀ x ∈ l, 0 ≤ x) → (∀ y ∈ st.1, 0 ≤ y) → 0 ≤ st.2 →
      ∀ y ∈ (l.foldl
        (fun (st : List ℚ × ℚ) x =>
          let nxt := st.2 - st.2 / p + x
          (st.1 ++ [nxt], nxt)) st).1, 0 ≤ y
  | [], st, _, h1, _, y, hy => h1 y hy
  | x :: rest, st, hl, h1, h2, y, hy => by
    rw [List.foldl_cons] at hy
    have hnxt : 0 ≤ st.2 - st.2 / p + x :=
      wilderSmoothStep_nonneg p st.2 x h2 (hl x (List.mem_cons_self x rest))
    exact wilderFold_nonneg p rest _
      (fun z hz => hl z (List.mem_cons_of_mem x hz))
      (by
        intro z hz
        rcases List.mem_append.mp hz with hz | hz
        · exact h1 z hz
        · rw [List.mem_singleton.mp hz]
          exact hnxt)
      hnxt y hy

theorem wilderSmooth_nonneg (p : ℕ) (arr : List ℚ) (h : ∀ x ∈ arr, 0 ≤ x) :
    ∀ y ∈ wilderSmooth p arr, 0 ≤ y := by
  have hseed : 0 ≤ sma (arr.take p) p :=
    sma_nonneg _ p (fun x hx => h x (List.take_subset p arr hx))
  unfold wilderSmooth
  exact wilderFold_nonneg p (arr.drop p) ([sma (arr.take p) p], sma (arr.take p) p)
    (fun x hx => h x (List.drop_subset p arr hx))
    (by
      intro z hz
      rw [List.mem_singleton.mp hz]
      exact hseed)
    hseed

theorem dxList_bounds (t pl mn : List ℚ)
    (ht : ∀ x ∈ t, 0 ≤ x) (hp : ∀ x ∈ pl, 0 ≤ x) (hm : ∀ x ∈ mn, 0 ≤ x) :
    ∀ x ∈ dxList t pl mn, 0 ≤ x ∧ x ≤ 100 := by
  intro x hx
  rw [dxList] at hx
  rcases List.mem_map.mp hx with ⟨i, _, rfl⟩
  dsimp only
  set pdi := pl.getD i 0 / orOne (t.getD i 0) * 100 with hpdi_def
  set mdi := mn.getD i 0 / orOne (t.getD i 0) * 100 with hmdi_def
  have horpos : 0 < orOne (t.getD i 0) := orOne_pos _ (getD_nonneg t ht i)
  have hpdi : 0 ≤ pdi := by
    rw [hpdi_def]
    apply mul_nonneg _ (by norm_num)
    exact div_nonneg (getD_nonneg pl hp i) (le_of_lt horpos)
  have hmdi : 0 ≤ mdi := by
    rw [hmdi_def]
    apply mul_nonneg _ (by norm_num)
    exact div_nonneg (getD_nonneg mn hm i) (le_of_lt horpos)
  have hdenpos : 0 < orOne (pdi + mdi) := orOne_pos _ (by linarith)
  constructor
  · apply mul_nonneg _ (by norm_num)
    apply div_nonneg _ (le_of_lt hdenpos)
    rw [jabs_eq_abs]
    exact abs_nonneg _
  · rw [jabs_eq_abs]
    by_cases hz : pdi + mdi = 0
    · have hpdi0 : pdi = 0 := by linarith
      have hmdi0 : mdi = 0 := by linarith
      rw [hpdi0, hmdi0]
      norm_num [orOne]
    · have horOne : orOne (pdi + mdi) = pdi + mdi := by
        unfold orOne
        rw [if_neg hz]
      have habs : |pdi - mdi| ≤ pdi + mdi := abs_le.mpr ⟨by linarith, by linarith⟩
      have hpos : 0 < pdi + mdi := lt_of_le_of_ne (by linarith) (Ne.symm hz)
      rw [horOne]
      have hone : |pdi - mdi| / (pdi + mdi) ≤ 1 := div_le_one_of_le₀ habs (le_of_lt hpos)
      nlinarith [abs_nonneg (pdi - mdi)]

/-- C9 counterexample: with period 0 and a non-empty window the JS `adx`
returns `NaN` — not a value in [0,100] — because the seeding average divides
by zero; the degenerate-input guard does not fire since the window is long
enough (`2 ≥ 0 + 1`). -/
theorem adx_period_zero_nan :
    adxJs [1, 2] [0, 1] [1, 1] 0 = none ∧ ¬([1, 2].length < 0 + 1) := by
  decide

/-- C9 (amended): for every input and every period `p ≥ 1`, `adx` returns a
value in [0,100] (the `|| 1` substitutions keep each DX term, hence their
average, in range); with period 0 the JS computation yields `NaN` instead. -/
theorem adx_in_unit_range (h l c : List ℚ) (p : ℕ) (hp : 1 ≤ p) :
    adxJs h l c p = some (adx h l c p) ∧
    0 ≤ adx h l c p ∧ adx h l c p ≤ 100 := by
  refine ⟨?_, ?_⟩
  · unfold adxJs
    split_ifs with hshort hzero
    · have h0 : adx h l c p = 0 := by
        unfold adx
        rw [if_pos hshort]
      rw [h0]
    · omega
    · rfl
  unfold adx
  split_ifs with hlen
  · norm_num
  · have htr := wilderSmooth_nonneg p (trList h l c) (trList_nonneg h l c)
    have hpl := wilderSmooth_nonneg p (dmPlusList h l) (dmPlusList_nonneg h l)
    have hmn := wilderSmooth_nonneg p (dmMinusList h l) (dmMinusList_nonneg h l)
    have hdx := dxList_bounds _ _ _ htr hpl hmn
    have hs0 : 0 ≤ sma (jsSliceLast (dxList (wilderSmooth p (trList h l c))
        (wilderSmooth p (dmPlusList h l)) (wilderSmooth p (dmMinusList h l))) p) p :=
      sma_nonneg _ p (fun x hx => (hdx x (jsSliceLast_subset _ p x hx)).1)
    have hs100 : sma (jsSliceLast (dxList (wilderSmooth p (trList h l c))
        (wilderSmooth p (dmPlusList h l)) (wilderSmooth p (dmMinusList h l))) p) p ≤ 100 :=
      sma_le_of_le _ p (fun x hx => (hdx x (jsSliceLast_subset _ p x hx)).2)
    constructor
    · have := round2_mono hs0
      rw [round2_zero] at this
      exact this
    · have := round2_mono hs100
      rw [round2_hundred] at this
      exact this

/-- Witness for C9's amended theorem at a concrete window and period 1. -/
theorem adx_in_unit_range_witness :
    adxJs [1, 2] [0, 1] [1, 1] 1 = some (adx [1, 2] [0, 1] [1, 1] 1) ∧
    0 ≤ adx [1, 2] [0, 1] [1, 1] 1 ∧ adx [1, 2] [0, 1] [1, 1] 1 ≤ 100 :=
  adx_in_unit_range [1, 2] [0, 1] [1, 1] 1 (by norm_num)

/-! ### C1: quality score bounds and factor monotonicity -/

theorem jround_nonneg {x : ℚ} (h : 0 ≤ x) : 0 ≤ jround x := by
  unfold jround
  exact Int.le_floor.mpr (by push_cast; linarith)

theorem jround_mono {a b : ℚ} (h : a ≤ b) : jround a ≤ jround b :=
  Int.floor_le_floor (by linarith)

theorem alignFactor_le_two (d : Snap) : alignFactor d ≤ 2 := by
  unfold alignFactor
  dsimp only
  split_ifs <;> omega

theorem momentumFactor_le_two (d : Snap) : momentumFactor d ≤ 2 := by
  unfold momentumFactor
  dsimp only
  split_ifs <;> omega

theorem crowdFactor_le_two (d : SnapCore) (p : Play) : crowdFactor d p ≤ 2 := by
  unfold crowdFactor
  dsimp only
  split_ifs <;> omega

theorem structureFactor_le_two (d : Snap) : structureFactor d ≤ 2 := by
  unfold structureFactor
  dsimp only
  split_ifs <;> omega

theorem riskFactor_le_two (stress : ℚ) : riskFactor stress ≤ 2 := by
  unfold riskFactor
  split_ifs <;> omega

theorem rawFactors_le_two (d : Snap) (p : Play) : ∀ v ∈ rawFactors d p, v ≤ 2 := by
  intro v hv
  unfold rawFactors at hv
  rcases hv with _ | ⟨_, _ | ⟨_, _ | ⟨_, _ | ⟨_, _ | ⟨_, h⟩⟩⟩⟩⟩
  · exact alignFactor_le_two d
  · exact momentumFactor_le_two d
  · exact crowdFactor_le_two d.core p
  · exact structureFactor_le_two d
  · exact riskFactor_le_two d.stressIndex
  · cases h

theorem weightsFor_pos (id : ℤ) : ∀ x ∈ weightsFor id, 0 < x := by
  intro x hx
  unfold weightsFor at hx
  split_ifs at hx <;> fin_cases hx <;> norm_num

theorem bonusBand2_bounds (bw : Option ℚ) : 0 ≤ bonusBand2 bw ∧ bonusBand2 bw ≤ 2 := by
  unfold bonusBand2
  rcases bw with _ | b
  · norm_num
  · dsimp only
    split_ifs <;> norm_num

theorem bonusBand8_bounds (bw : Option ℚ) : 0 ≤ bonusBand8 bw ∧ bonusBand8 bw ≤ 2 := by
  unfold bonusBand8
  rcases bw with _ | b
  · norm_num
  · dsimp only
    split_ifs <;> norm_num

theorem playBonus_bounds (p : Play) (d : SnapCore) :
    0 ≤ playBonus p d ∧ playBonus p d ≤ 2 := by
  unfold playBonus
  dsimp only
  split_ifs <;>
    first
      | exact bonusBand2_bounds _
      | exact bonusBand8_bounds _
      | constructor <;> norm_num

theorem zip_mul_sum_nonneg :
    ∀ (f : List ℕ) (w : List ℚ), (∀ x ∈ w, 0 ≤ x) →
      0 ≤ (List.zipWith (fun (v : ℕ) (wi : ℚ) => (v : ℚ) * wi) f w).sum
  | [], _, _ => by simp
  | _ :: _, [], _ => by simp
  | v :: f, wi :: w, hw => by
    rw [List.zipWith_cons_cons, List.sum_cons]
    have h1 : 0 ≤ (v : ℚ) * wi :=
      mul_nonneg (by positivity) (hw wi (List.mem_cons_self wi w))
    have h2 := zip_mul_sum_nonneg f w (fun x hx => hw x (List.mem_cons_of_mem wi hx))
    linarith

theorem zip_set_mono :
    ∀ (f : List ℕ) (w : List ℚ) (i : ℕ), (∀ x ∈ w, 0 ≤ x) →
      (List.zipWith (fun (v : ℕ) (wi : ℚ) => (v : ℚ) * wi) (f.set i 0) w).sum ≤
      (List.zipWith (fun (v : ℕ) (wi : ℚ) => (v : ℚ) * wi) (f.set i 2) w).sum
  | [], _, _, _ => by simp
  | _ :: _, [], i, _ => by cases i <;> simp
  | v :: f, wi :: w, 0, hw => by
    rw [List.set_cons_zero, List.set_cons_zero,
      List.zipWith_cons_cons, List.zipWith_cons_cons, List.sum_cons, List.sum_cons]
    have hwi : 0 ≤ wi := hw wi (List.mem_cons_self wi w)
    have : ((0 : ℕ) : ℚ) * wi ≤ ((2 : ℕ) : ℚ) * wi := by push_cast; linarith
    linarith
  | v :: f, wi :: w, i + 1, hw => by
    rw [List.set_cons_succ, List.set_cons_succ,
      List.zipWith_cons_cons, List.zipWith_cons_cons, List.sum_cons, List.sum_cons]
    have := zip_set_mono f w i (fun x hx => hw x (List.mem_cons_of_mem wi hx))
    linarith

theorem scoreCore_bounds (f : List ℕ) (w : List ℚ) (b : ℤ)
    (hw : ∀ x ∈ w, 0 ≤ x) (hb : 0 ≤ b) :
    0 ≤ scoreCore f w b ∧ scoreCore f w b ≤ 10 := by
  unfold scoreCore
  rw [jminI_eq_min]
  refine ⟨le_min (by norm_num) ?_, min_le_left _ _⟩
  have h1 := zip_mul_sum_nonneg f w hw
  have hsum : 0 ≤ w.sum := List.sum_nonneg hw
  have hdiv : 0 ≤ (List.zipWith (fun (v : ℕ) (wi : ℚ) => (v : ℚ) * wi) f w).sum /
      (w.sum * 2) * 10 := by positivity
  have := jround_nonneg hdiv
  omega

theorem scoreCore_set_mono (f : List ℕ) (w : List ℚ) (b : ℤ) (i : ℕ)
    (hw : ∀ x ∈ w, 0 < x) :
    scoreCore (f.set i 0) w b ≤ scoreCore (f.set i 2) w b := by
  unfold scoreCore
  rw [jminI_eq_min, jminI_eq_min]
  have hw0 : ∀ x ∈ w, 0 ≤ x := fun x hx => le_of_lt (hw x hx)
  have hzip := zip_set_mono f w i hw0
  have hmaxinv : 0 ≤ (w.sum * 2)⁻¹ := by
    have := List.sum_nonneg hw0
    positivity
  have hdiv :
      (List.zipWith (fun (v : ℕ) (wi : ℚ) => (v : ℚ) * wi) (f.set i 0) w).sum /
        (w.sum * 2) * 10 ≤
      (List.zipWith (fun (v : ℕ) (wi : ℚ) => (v : ℚ) * wi) (f.set i 2) w).sum /
        (w.sum * 2) * 10 := by
    rw [div_eq_mul_inv, div_eq_mul_inv]
    exact mul_le_mul_of_nonneg_right
      (mul_le_mul_of_nonneg_right hzip hmaxinv) (by norm_num)
  have := jround_mono hdiv
  exact min_le_min (le_refl 10) (by omega)

/-- C1: the quality score is an integer in [0,10] for every snapshot and
play; every raw sub-factor lies in 0..2; every per-signal weight is positive;
and raising one sub-factor from 0 to 2 (weights and the other factors fixed)
never decreases the score. -/
theorem quality_score_bounds_and_monotone :
    (∀ (d : Snap) (p : Play),
      0 ≤ computeQualityScore d p ∧ computeQualityScore d p ≤ 10) ∧
    (∀ (d : Snap) (p : Play), ∀ v ∈ rawFactors d p, v ≤ 2) ∧
    (∀ id : ℤ, ∀ x ∈ weightsFor id, 0 < x) ∧
    (∀ (factors : List ℕ) (w : List ℚ) (b : ℤ) (i : ℕ),
      (∀ x ∈ w, 0 < x) →
      scoreCore (factors.set i 0) w b ≤ scoreCore (factors.set i 2) w b) := by
  refine ⟨?_, rawFactors_le_two, weightsFor_pos, ?_⟩
  · intro d p
    exact scoreCore_bounds (rawFactors d p) (weightsFor p.id) (playBonus p d.core)
      (fun x hx => le_of_lt (weightsFor_pos p.id x hx))
      (playBonus_bounds p d.core).1
  · intro f w b i hw
    exact scoreCore_set_mono f w b i hw

/-- Witness for C1's monotonicity conjunct at a concrete factor vector and
the play-3 weight vector. -/
theorem quality_score_bounds_and_monotone_witness :
    scoreCore ([1, 1, 1, 1, 1].set 0 0) (weightsFor 3) 0 ≤
      scoreCore ([1, 1, 1, 1, 1].set 0 2) (weightsFor 3) 0 :=
  quality_score_bounds_and_monotone.2.2.2 [1, 1, 1, 1, 1] (weightsFor 3) 0 0
    (by decide)

/-! ### C2: the gate loop never discards a play -/

/-- C2: regime-aware gating maps the play list one-to-one: the length is
preserved, each gated play stays in the list, only `quality`, `belowGate` and
the `_gateInfo` diagnostics change, and a play that is denied by regime or
scores below its adjusted gate is flagged `belowGate` instead of removed. -/
theorem gate_never_discards (d : Snap) (R : Regime) (plays : List Play) :
    (applyGates d R plays).length = plays.length ∧
    (∀ p ∈ plays, gateStep d R p ∈ applyGates d R plays) ∧
    (∀ p ∈ plays,
      (gateStep d R p).id = p.id ∧ (gateStep d R p).dir = p.dir ∧
      (gateStep d R p).name = p.name ∧ (gateStep d R p).entry = p.entry ∧
      (gateStep d R p).stop = p.stop ∧ (gateStep d R p).tp1 = p.tp1 ∧
      (gateStep d R p).lev = p.lev ∧
      (gateStep d R p).quality = some (p.quality.getD (computeQualityScore d p))) ∧
    (∀ p ∈ plays,
      ((regimeAdjustGate p d.core.neckBreak R).2 = true →
        (gateStep d R p).belowGate = true) ∧
      ((gateStep d R p).belowGate = false ↔
        (regimeAdjustGate p d.core.neckBreak R).2 = false ∧
        ¬(p.quality.getD (computeQualityScore d p) <
          jmaxI 1 (minGate p.id + (regimeAdjustGate p d.core.neckBreak R).1)))) := by
  refine ⟨List.length_map plays (gateStep d R), ?_, ?_, ?_⟩
  · intro p hp
    exact List.mem_map_of_mem (gateStep d R) hp
  · intro p _
    exact ⟨rfl, rfl, rfl, rfl, rfl, rfl, rfl, rfl⟩
  · intro p _
    have hbg : (gateStep d R p).belowGate =
        (if (regimeAdjustGate p d.core.neckBreak R).2 = true then true
         else decide (p.quality.getD (computeQualityScore d p) <
           jmaxI 1 (minGate p.id + (regimeAdjustGate p d.core.neckBreak R).1))) := rfl
    constructor
    · intro hdeny
      rw [hbg, if_pos hdeny]
    · cases hdeny : (regimeAdjustGate p d.core.neckBreak R).2
      · rw [hbg]
        simp [hdeny]
      · rw [hbg, if_pos hdeny]
        simp [hdeny]

/-- Witness for C2 at a concrete snapshot, regime and single-play list. -/
theorem gate_never_discards_witness :
    gateStep snap0 regime0 play0 ∈ applyGates snap0 regime0 [play0] ∧
    (gateStep snap0 regime0 play0).id = play0.id :=
  ⟨(gate_never_discards snap0 regime0 [play0]).2.1 play0 (by decide),
   ((gate_never_discards snap0 regime0 [play0]).2.2.1 play0 (by decide)).1⟩

/-! ### C3: per-key TTL de-duplication and A-tier mute bypass -/

theorem find?_filter_imp (p q : PlayKey × ℤ → Bool)
    (himp : ∀ e, p e = true → q e = true) :
    ∀ l : List (PlayKey × ℤ), (l.filter q).find? p = l.find? p
  | [] => rfl
  | e :: l => by
    cases hq : q e
    · have hp : ¬(p e = true) := by
        intro hp
        rw [himp e hp] at hq
        cases hq
      rw [List.filter_cons_of_neg (by simp [hq]), List.find?_cons_of_neg _ hp]
      exact find?_filter_imp p q himp l
    · rw [List.filter_cons_of_pos (by simp [hq])]
      cases hp : p e
      · rw [List.find?_cons_of_neg _ (by simp [hp]),
          List.find?_cons_of_neg _ (by simp [hp])]
        exact find?_filter_imp p q himp l
      · rw [List.find?_cons_of_pos _ hp, List.find?_cons_of_pos _ hp]

theorem lookupL_setKey_self (l : List (PlayKey × ℤ)) (k : PlayKey) (v : ℤ) :
    lookupL (setKey l k v) k = v := by
  unfold lookupL setKey
  rw [List.find?_cons_of_pos _ (by simp)]

theorem lookupL_setKey_other (l : List (PlayKey × ℤ)) (k k' : PlayKey) (v : ℤ)
    (h : k' ≠ k) :
    lookupL (setKey l k v) k' = lookupL l k' := by
  unfold lookupL setKey
  rw [List.find?_cons_of_neg _ (by simp [Ne.symm h])]
  rw [find?_filter_imp (fun e => decide (e.1 = k')) (fun e => decide (e.1 ≠ k)) ?_ l]
  intro e he
  simp only [decide_eq_true_eq] at he ⊢
  rw [he]
  exact h

theorem lookupL_foldl_untouched (d : SnapCore) (now : ℤ) (k : PlayKey) :
    ∀ (rest : List Play) (acc : List (PlayKey × ℤ)),
      (∀ q ∈ rest, playKey q d ≠ k) →
      lookupL (rest.foldl (fun acc p => setKey acc (playKey p d) now) acc) k
        = lookupL acc k
  | [], acc, _ => rfl
  | p :: rest, acc, hne => by
    rw [List.foldl_cons]
    rw [lookupL_foldl_untouched d now k rest _
      (fun q hq => hne q (List.mem_cons_of_mem p hq))]
    exact lookupL_setKey_other acc (playKey p d) k now
      (Ne.symm (hne p (List.mem_cons_self p rest)))

theorem lookupL_writeAll (d : SnapCore) (now : ℤ) (k : PlayKey) :
    ∀ (fresh : List Play) (acc : List (PlayKey × ℤ)),
      (∃ p ∈ fresh, playKey p d = k) →
      lookupL (fresh.foldl (fun acc p => setKey acc (playKey p d) now) acc) k = now
  | [], _, hex => by
    rcases hex with ⟨p, hp, _⟩
    cases hp
  | p :: rest, acc, hex => by
    rw [List.foldl_cons]
    by_cases hrest : ∃ q ∈ rest, playKey q d = k
    · exact lookupL_writeAll d now k rest _ hrest
    · push_neg at hrest
      rcases hex with ⟨q, hq, hqk⟩
      rcases List.mem_cons.mp hq with rfl | hq'
      · rw [lookupL_foldl_untouched d now k rest _ hrest, hqk,
          lookupL_setKey_self]
      · exact absurd hqk (hrest q hq')

/-- C3: (1) once a play is emitted, any play carrying the same de-dup key is
not emitted again by a tick that runs within the 30-minute per-key TTL;
(2) when some sendable play is A-tier (quality ≥ 8), the 60-minute global
mute is not in effect even inside the mute window, and the tick proceeds to
the TTL filter. -/
theorem dedup_ttl_and_atier_bypass :
    (∀ (c : Cache) (d₁ d₂ : SnapCore) (s₁ s₂ : List Play) (p₁ p₂ : Play) (t₁ t₂ : ℤ),
      p₁ ∈ (emitTick false t₁ c d₁ s₁).1 →
      playKey p₂ d₂ = playKey p₁ d₁ →
      t₁ ≤ t₂ → t₂ - t₁ < TTLms →
      p₂ ∉ (emitTick false t₂ (emitTick false t₁ c d₁ s₁).2 d₂ s₂).1) ∧
    (∀ (c : Cache) (d : SnapCore) (s : List Play) (now : ℤ),
      s.any aTier = true →
      now - c.ts < muteWindowMs →
      globalMutedB false now c s = false ∧
      (emitTick false now c d s).1 = freshPlays now c d s) := by
  constructor
  · intro c d₁ d₂ s₁ s₂ p₁ p₂ t₁ t₂ hp₁ hkey ht12 httl hmem
    by_cases hg1 : globalMutedB false t₁ c s₁ = true
    · have e1 : emitTick false t₁ c d₁ s₁ = ([], c) := by
        simp only [emitTick]
        rw [if_pos hg1]
      rw [e1] at hp₁
      cases hp₁
    · by_cases he1 : (freshPlays t₁ c d₁ s₁).isEmpty = true
      · have e1 : emitTick false t₁ c d₁ s₁ = ([], c) := by
          simp only [emitTick]
          rw [if_neg hg1, if_pos he1]
        rw [e1] at hp₁
        cases hp₁
      · have e1 : emitTick false t₁ c d₁ s₁
            = (freshPlays t₁ c d₁ s₁,
               ⟨t₁, (freshPlays t₁ c d₁ s₁).foldl
                 (fun acc p => setKey acc (playKey p d₁) t₁) c.plays⟩) := by
          simp only [emitTick]
          rw [if_neg hg1, if_neg he1, if_neg Bool.false_ne_true]
        have e1fst : (emitTick false t₁ c d₁ s₁).1 = freshPlays t₁ c d₁ s₁ := by
          rw [e1]
        have e1snd : (emitTick false t₁ c d₁ s₁).2
            = ⟨t₁, (freshPlays t₁ c d₁ s₁).foldl
                (fun acc p => setKey acc (playKey p d₁) t₁) c.plays⟩ := by
          rw [e1]
        rw [e1fst] at hp₁
        rw [e1snd] at hmem
        by_cases hg2 : globalMutedB false t₂
            ⟨t₁, (freshPlays t₁ c d₁ s₁).foldl
              (fun acc p => setKey acc (playKey p d₁) t₁) c.plays⟩ s₂ = true
        · have e2 : emitTick false t₂
              ⟨t₁, (freshPlays t₁ c d₁ s₁).foldl
                (fun acc p => setKey acc (playKey p d₁) t₁) c.plays⟩ d₂ s₂
              = ([], ⟨t₁, (freshPlays t₁ c d₁ s₁).foldl
                  (fun acc p => setKey acc (playKey p d₁) t₁) c.plays⟩) := by
            simp only [emitTick]
            rw [if_pos hg2]
          rw [e2] at hmem
          cases hmem
        · by_cases he2 : (freshPlays t₂
              ⟨t₁, (freshPlays t₁ c d₁ s₁).foldl
                (fun acc p => setKey acc (playKey p d₁) t₁) c.plays⟩ d₂ s₂).isEmpty = true
          · have e2 : emitTick false t₂
                ⟨t₁, (freshPlays t₁ c d₁ s₁).foldl
                  (fun acc p => setKey acc (playKey p d₁) t₁) c.plays⟩ d₂ s₂
                = ([], ⟨t₁, (freshPlays t₁ c d₁ s₁).foldl
                    (fun acc p => setKey acc (playKey p d₁) t₁) c.plays⟩) := by
              simp only [emitTick]
              rw [if_neg hg2, if_pos he2]
            rw [e2] at hmem
            cases hmem
          · have e2fst : (emitTick false t₂
                ⟨t₁, (freshPlays t₁ c d₁ s₁).foldl
                  (fun acc p => setKey acc (playKey p d₁) t₁) c.plays⟩ d₂ s₂).1
                = freshPlays t₂
                    ⟨t₁, (freshPlays t₁ c d₁ s₁).foldl
                      (fun acc p => setKey acc (playKey p d₁) t₁) c.plays⟩ d₂ s₂ := by
              simp only [emitTick]
              rw [if_neg hg2, if_neg he2, if_neg Bool.false_ne_true]
            rw [e2fst] at hmem
            rcases List.mem_filter.mp hmem with ⟨_, hpred⟩
            simp only [Bool.not_eq_true', decide_eq_false_iff_not, not_lt] at hpred
            have hlook : lookupL
                ((freshPlays t₁ c d₁ s₁).foldl
                  (fun acc p => setKey acc (playKey p d₁) t₁) c.plays)
                (playKey p₂ d₂) = t₁ :=
              lookupL_writeAll d₁ t₁ (playKey p₂ d₂) (freshPlays t₁ c d₁ s₁)
                c.plays ⟨p₁, hp₁, hkey.symm⟩
            rw [hlook] at hpred
            have : ¬(TTLms ≤ t₂ - t₁) := not_le.mpr httl
            exact this hpred
  · intro c d s now hA hmute
    have hg : globalMutedB false now c s = false := by
      unfold globalMutedB
      rw [hA]
      simp
    have hgneg : ¬(globalMutedB false now c s = true) := by
      rw [hg]
      exact Bool.false_ne_true
    refine ⟨hg, ?_⟩
    by_cases he : (freshPlays now c d s).isEmpty = true
    · have e : emitTick false now c d s = ([], c) := by
        simp only [emitTick]
        rw [if_neg hgneg, if_pos he]
      rw [e]
      rw [List.isEmpty_iff] at he
      rw [he]
    · have e : emitTick false now c d s
          = (freshPlays now c d s,
             ⟨now, (freshPlays now c d s).foldl
               (fun acc p => setKey acc (playKey p d) now) c.plays⟩) := by
        simp only [emitTick]
        rw [if_neg hgneg, if_neg he, if_neg Bool.false_ne_true]
      rw [e]

/-- Witness for C3: a concrete two-tick duplicate scenario, and a concrete
muted-window tick saved by an A-tier play. -/
theorem dedup_ttl_and_atier_bypass_witness :
    playA ∈ (emitTick false 1000000000000 cache0 core0 [playA]).1 ∧
    playA ∉ (emitTick false 1000000001000
      (emitTick false 1000000000000 cache0 core0 [playA]).2 core0 [playA]).1 ∧
    globalMutedB false 1000000001000 ⟨1000000000000, []⟩ [playA] = false :=
  ⟨by decide,
   dedup_ttl_and_atier_bypass.1 cache0 core0 core0 [playA] [playA] playA playA
     1000000000000 1000000001000 (by decide) rfl (by decide) (by decide),
   (dedup_ttl_and_atier_bypass.2 ⟨1000000000000, []⟩ core0 [playA] 1000000001000
     (by decide) (by decide)).1⟩

/-! ### C10: missing snapshot sections make the scorer throw -/

/-- C10: `computeQualityScore` dereferences `dataA["15m"]`, `dataC["15m"]`
and `dataE` without guards: when any of these sections is absent the JS
throws a `TypeError` (the `Option` model returns `none`), while on a full
snapshot it totals to a score — unavailability of a section is not recovered
inside the scoring engine. -/
theorem score_throws_on_missing_sections :
    computeQualityScoreOpt snapOptNoA15 play0 = none ∧
    computeQualityScoreOpt snapOptNoC15 play0 = none ∧
    computeQualityScoreOpt snapOptNoE play0 = none ∧
    (computeQualityScoreOpt snapOptFull play0).isSome = true :=
  ⟨rfl, rfl, rfl, rfl⟩

end ETH
